import Mathlib

/-!
Verification development for the batch-result dashboard core (`ui.py`).

The Python source is shallowly embedded: each helper below mirrors one
construct of `process_json`, `filter_dataframe`, the KPI block, or the
navigation callbacks.  Strings are modelled as Lean `String`s manipulated
through their character lists (Python's `str.split`, `str.rsplit`,
`in`, `.lower()`, `.upper()` are modelled character-wise; character
classification is modelled for ASCII data).  JSON absence/null is modelled
with `Option` exactly where the source distinguishes them (`dict.get(k)`
versus `dict.get(k, default)` versus `x or default`).  A Python exception
escaping `process_json` is modelled as `none`.
-/

set_option maxHeartbeats 1000000

namespace UiModel

/-! ## Character-list splitting utilities

`splitFirstAux c l` models Python `split(c, 1)` restricted to the
interesting outcome: `some (pre, post)` when `c` occurs (split at the first
occurrence), `none` when it does not (where Python would return a
single-element list and `parts[1]` would raise `IndexError`). -/

def splitFirstAux (c : Char) : List Char → Option (List Char × List Char)
  | [] => none
  | x :: xs =>
    if x = c then some ([], xs)
    else
      match splitFirstAux c xs with
      | some (l, r) => some (x :: l, r)
      | none => none

/-- `splitLastAux c l` splits at the last occurrence of `c`:
`some (pre, post)` with `l = pre ++ c :: post` and `c ∉ post`, or `none`
when `c` does not occur.  This is the shared core of Python's
`rsplit(c, 1)` and `split(c)[-1]`. -/
def splitLastAux (c : Char) : List Char → Option (List Char × List Char)
  | [] => none
  | x :: xs =>
    match splitLastAux c xs with
    | some (l, r) => some (x :: l, r)
    | none => if x = c then some ([], xs) else none

/-- Python `split(c)` (no maxsplit): always a non-empty list of parts. -/
def splitAll (c : Char) : List Char → List (List Char)
  | [] => [[]]
  | x :: xs =>
    if x = c then [] :: splitAll c xs
    else
      match splitAll c xs with
      | h :: t => (x :: h) :: t
      | [] => [[x]]

/-- Python `pat in s` on strings (substring containment), character-wise. -/
def containsSub (pat : List Char) : List Char → Bool
  | [] => pat.isEmpty
  | x :: xs => pat.isPrefixOf (x :: xs) || containsSub pat xs

theorem splitFirstAux_eq_none {c : Char} {l : List Char} :
    splitFirstAux c l = none ↔ c ∉ l := by
  induction l with
  | nil => simp [splitFirstAux]
  | cons x xs ih =>
    by_cases hx : x = c
    · simp [splitFirstAux, hx]
    · cases h : splitFirstAux c xs with
      | some p =>
        obtain ⟨l', r'⟩ := p
        have hin : c ∈ xs := by
          by_contra hno
          rw [ih.mpr hno] at h; cases h
        simp only [splitFirstAux, if_neg hx, h]
        simp [List.mem_cons_of_mem x hin]
      | none =>
        have hxs : c ∉ xs := ih.mp h
        have hall : c ∉ x :: xs := by
          intro hmem
          rcases List.mem_cons.mp hmem with h' | h'
          · exact hx h'.symm
          · exact hxs h'
        simp only [splitFirstAux, if_neg hx, h]
        simp [hall]

theorem splitFirstAux_sound {c : Char} {l pre post : List Char}
    (h : splitFirstAux c l = some (pre, post)) :
    l = pre ++ c :: post ∧ c ∉ pre := by
  induction l generalizing pre post with
  | nil => simp [splitFirstAux] at h
  | cons x xs ih =>
    by_cases hx : x = c
    · simp only [splitFirstAux, if_pos hx, Option.some.injEq, Prod.mk.injEq] at h
      obtain ⟨h1, h2⟩ := h
      subst h1; subst h2
      simp [hx]
    · cases hsub : splitFirstAux c xs with
      | none =>
        simp only [splitFirstAux, if_neg hx, hsub] at h
        cases h
      | some p =>
        obtain ⟨l', r'⟩ := p
        simp only [splitFirstAux, if_neg hx, hsub, Option.some.injEq,
          Prod.mk.injEq] at h
        obtain ⟨h1, h2⟩ := h
        subst h1; subst h2
        obtain ⟨hl, hnp⟩ := ih hsub
        refine ⟨by simp [hl], ?_⟩
        intro hmem
        rcases List.mem_cons.mp hmem with h' | h'
        · exact hx h'.symm
        · exact hnp h'

theorem splitFirstAux_complete {c : Char} {pre post : List Char}
    (hnp : c ∉ pre) : splitFirstAux c (pre ++ c :: post) = some (pre, post) := by
  induction pre with
  | nil => simp [splitFirstAux]
  | cons x xs ih =>
    have hx : ¬ x = c := fun h => hnp (by simp [h])
    have hxs : c ∉ xs := fun h => hnp (List.mem_cons_of_mem x h)
    simp only [List.cons_append, splitFirstAux, if_neg hx, List.append_eq, ih hxs]

theorem splitLastAux_eq_none {c : Char} {l : List Char} :
    splitLastAux c l = none ↔ c ∉ l := by
  induction l with
  | nil => simp [splitLastAux]
  | cons x xs ih =>
    cases h : splitLastAux c xs with
    | some p =>
      obtain ⟨l', r'⟩ := p
      have hin : c ∈ xs := by
        by_contra hno
        rw [ih.mpr hno] at h; cases h
      simp only [splitLastAux, h]
      simp [List.mem_cons_of_mem x hin]
    | none =>
      have hxs : c ∉ xs := ih.mp h
      by_cases hx : x = c
      · simp [splitLastAux, h, hx]
      · have hall : c ∉ x :: xs := by
          intro hmem
          rcases List.mem_cons.mp hmem with h' | h'
          · exact hx h'.symm
          · exact hxs h'
        simp only [splitLastAux, h, if_neg hx]
        simp [hall]

theorem splitLastAux_sound {c : Char} {l pre post : List Char}
    (h : splitLastAux c l = some (pre, post)) :
    l = pre ++ c :: post ∧ c ∉ post := by
  induction l generalizing pre post with
  | nil => simp [splitLastAux] at h
  | cons x xs ih =>
    cases hsub : splitLastAux c xs with
    | some p =>
      obtain ⟨l', r'⟩ := p
      simp only [splitLastAux, hsub, Option.some.injEq, Prod.mk.injEq] at h
      obtain ⟨h1, h2⟩ := h
      subst h1; subst h2
      obtain ⟨hl, hnp⟩ := ih hsub
      exact ⟨by simp [hl], hnp⟩
    | none =>
      by_cases hx : x = c
      · simp only [splitLastAux, hsub, if_pos hx, Option.some.injEq,
          Prod.mk.injEq] at h
        obtain ⟨h1, h2⟩ := h
        subst h1; subst h2
        exact ⟨by simp [hx], splitLastAux_eq_none.mp hsub⟩
      · simp only [splitLastAux, hsub, if_neg hx] at h
        cases h

theorem splitLastAux_complete {c : Char} {pre post : List Char}
    (hnp : c ∉ post) : splitLastAux c (pre ++ c :: post) = some (pre, post) := by
  induction pre with
  | nil =>
    simp [splitLastAux, splitLastAux_eq_none.mpr hnp]
  | cons x xs ih =>
    simp only [List.cons_append, splitLastAux, List.append_eq, ih]

theorem splitAll_ne_nil (c : Char) (l : List Char) : splitAll c l ≠ [] := by
  cases l with
  | nil => simp [splitAll]
  | cons x xs =>
    by_cases hx : x = c
    · simp [splitAll, hx]
    · cases h : splitAll c xs with
      | nil => simp [splitAll, if_neg hx, h]
      | cons a t => simp [splitAll, if_neg hx, h]

theorem splitAll_no_occ {c : Char} {l : List Char} (h : c ∉ l) :
    splitAll c l = [l] := by
  induction l with
  | nil => simp [splitAll]
  | cons x xs ih =>
    have hx : ¬ x = c := fun h' => h (by simp [h'])
    have hxs : c ∉ xs := fun h' => h (List.mem_cons_of_mem x h')
    simp only [splitAll, if_neg hx, ih hxs]

theorem splitAll_first_occ {c : Char} {pre post : List Char} (h : c ∉ pre) :
    splitAll c (pre ++ c :: post) = pre :: splitAll c post := by
  induction pre with
  | nil => simp [splitAll]
  | cons x xs ih =>
    have hx : ¬ x = c := fun h' => h (by simp [h'])
    have hxs : c ∉ xs := fun h' => h (List.mem_cons_of_mem x h')
    simp only [List.cons_append, splitAll, if_neg hx, List.append_eq, ih hxs]

theorem splitAll_length_ge_two {c : Char} {l : List Char} (h : c ∈ l) :
    2 ≤ (splitAll c l).length := by
  obtain ⟨pre, post, rfl, hnp⟩ :
      ∃ pre post, l = pre ++ c :: post ∧ c ∉ pre := by
    cases hs : splitFirstAux c l with
    | none => exact absurd h (splitFirstAux_eq_none.mp hs)
    | some p =>
      obtain ⟨pre, post⟩ := p
      obtain ⟨hl, hnp⟩ := splitFirstAux_sound hs
      exact ⟨pre, post, hl, hnp⟩
  rw [splitAll_first_occ hnp]
  have h1 : 0 < (splitAll c post).length :=
    List.length_pos.mpr (splitAll_ne_nil c post)
  simp only [List.length_cons]
  omega

/-- The last element of Python `l.split(c)` is the suffix after the last
occurrence of `c` (or `l` itself when `c` does not occur). -/
theorem splitAll_getLastD_last_occ {c : Char} {pre post : List Char}
    (hnp : c ∉ post) :
    (splitAll c (pre ++ c :: post)).getLastD [] = post := by
  induction pre with
  | nil =>
    simp [splitAll, splitAll_no_occ hnp, List.getLastD_cons]
  | cons x xs ih =>
    rw [List.cons_append]
    by_cases hx : x = c
    · simp only [splitAll, if_pos hx, List.getLastD_cons]
      have hne := splitAll_ne_nil c (xs ++ c :: post)
      cases hs : splitAll c (xs ++ c :: post) with
      | nil => exact absurd hs hne
      | cons a t =>
        rw [hs] at ih
        simpa using ih
    · simp only [splitAll, if_neg hx]
      have hmem : c ∈ xs ++ c :: post := by simp
      have hlen := splitAll_length_ge_two hmem
      cases hs : splitAll c (xs ++ c :: post) with
      | nil => exact absurd hs (splitAll_ne_nil c _)
      | cons a t =>
        rw [hs] at ih hlen
        cases t with
        | nil => simp at hlen
        | cons b t' =>
          simp only [List.getLastD_cons] at ih ⊢
          exact ih

/-! ## String helpers (ASCII models of Python string methods) -/

/-- Python `s.lower()` (modelled for ASCII data). -/
def strLower (s : String) : String := String.mk (s.toList.map Char.toLower)

/-- Python `s.upper()` (modelled for ASCII data). -/
def strUpper (s : String) : String := String.mk (s.toList.map Char.toUpper)

/-- Python `x or default` where `x` is an optional string: `None`, absent
keys and the empty string are all falsy and give the default. -/
def pyOr (x : Option String) (d : String) : String :=
  match x with
  | none => d
  | some s => if s = "" then d else s

/-- Python `pat in s` at `String` level. -/
def strIn (pat s : String) : Bool := containsSub pat.toList s.toList

/-- Python `raw.startswith("s3://")`. -/
def startsWithS3 (s : String) : Bool := "s3://".toList.isPrefixOf s.toList

/-! ## Timestamp parsing (`datetime.strptime(seg, "%m%d%Y%H%M%S")`) -/

/-- A parsed wall-clock timestamp, as validated by `datetime`. -/
structure DateTime where
  year : Nat
  month : Nat
  day : Nat
  hour : Nat
  minute : Nat
  second : Nat
deriving DecidableEq

/-- Gregorian month length, as enforced by `datetime`'s constructor. -/
def daysInMonth (year month : Nat) : Nat :=
  if month = 2 then
    if year % 4 = 0 ∧ (year % 100 ≠ 0 ∨ year % 400 = 0) then 29 else 28
  else if month = 4 ∨ month = 6 ∨ month = 9 ∨ month = 11 then 30
  else 31

/-- Numeric value of a run of ASCII digit characters. -/
def natOfDigits (cs : List Char) : Nat :=
  cs.foldl (fun a c => a * 10 + (c.toNat - 48)) 0

/-- `datetime.strptime(seg, "%m%d%Y%H%M%S")` on a 14-character digit
string: fixed-width fields `MM dd yyyy HH MM SS`, then `datetime`'s range
validation; `none` models the `ValueError` that `process_json` catches. -/
def parseTS (cs : List Char) : Option DateTime :=
  if cs.length = 14 ∧ cs.all Char.isDigit then
    let mo := natOfDigits (cs.take 2)
    let d := natOfDigits ((cs.drop 2).take 2)
    let y := natOfDigits ((cs.drop 4).take 4)
    let h := natOfDigits ((cs.drop 8).take 2)
    let mi := natOfDigits ((cs.drop 10).take 2)
    let se := natOfDigits ((cs.drop 12).take 2)
    if 1 ≤ mo ∧ mo ≤ 12 ∧ 1 ≤ y ∧ 1 ≤ d ∧ d ≤ daysInMonth y mo ∧
        h ≤ 23 ∧ mi ≤ 59 ∧ se ≤ 59 then
      some ⟨y, mo, d, h, mi, se⟩
    else none
  else none

/-- `filename.rsplit('.', 1)[0]`: drop the last `.`-suffix if any. -/
def stripDotSuffix (f : List Char) : List Char :=
  match splitLastAux '.' f with
  | some (b, _) => b
  | none => f

/-- `name_clean.split('_')[-1]`: the segment after the last underscore. -/
def lastUnderscoreSeg (s : List Char) : List Char :=
  match splitLastAux '_' s with
  | some (_, a) => a
  | none => s

/-- Lines 68-76 of `ui.py`: date extraction from the filename.  `none`
models `pd.NaT` (the initial value kept on shape mismatch or on the
`ValueError` swallowed by the bare `except`). -/
def extractTimestamp (filename : String) : Option DateTime :=
  let date_part := lastUnderscoreSeg (stripDotSuffix filename.toList)
  if date_part.length == 14 && date_part.all Char.isDigit then
    parseTS date_part
  else none

/-! ## Raw-result data model

Fields are modelled exactly as far as `process_json` reads them.  For keys
accessed only through `x.get(k) or default`, JSON `null` and a missing key
are indistinguishable, so one `Option` layer suffices; for keys accessed
through `x.get(k)` / `x.get(k, default)`, the outer `Option` is key
presence and the inner `Option` is JSON `null`. -/

inductive FlowStep where
  | label (s : String)
  | dict (entries : List (String × String))
deriving DecidableEq

structure Analysis where
  overall_confidence : Option (Option Int) := none
deriving DecidableEq

structure Ocr where
  text : Option String := none
deriving DecidableEq

structure Timings where
  total_duration : Option (Option Int) := none
deriving DecidableEq

structure CQS where
  status : Option (Option String) := none
  reason : Option (Option String) := none
deriving DecidableEq

structure RawResult where
  s3_key : Option String := none
  input_filename : Option String := none
  flow : Option (List FlowStep) := none
  decision : Option String := none
  custom_quality_score : Option CQS := none
  analysis : Option Analysis := none
  ocr : Option Ocr := none
  timings : Option Timings := none
deriving DecidableEq

/-- One row of the flattened dataframe built by `process_json`.
`Option` fields hold `none` where the Python row stores `None`/`NaT`. -/
structure Record where
  Filename : String
  Timestamp : Option DateTime
  Decision : String
  Type_ : String
  Quality_Status : String
  Quality_Reason : Option String
  Confidence : Option Int
  Project : String
  File_Extension : String
  Total_Duration : Option Int
  Text_Length : Nat
  S3_Bucket : String
  S3_Key : String
deriving DecidableEq

/-! ## Record normalization (`process_json`, lines 36-108) -/

/-- Lines 40-57: parse the raw location string into (bucket, key).
`splitFirstAux = none` is the `IndexError` branch of the `try`. -/
def resolveLocation (bucketName raw : String) : String × String :=
  if startsWithS3 raw then
    match splitFirstAux '/' (raw.toList.drop 5) with
    | some (b, k) => (String.mk b, String.mk k)
    | none => (bucketName, raw)
  else (bucketName, raw)

/-- Does one flow step satisfy both conditions of lines 64-65?
(`isinstance(step, dict) and "pdf_scanned_check" in step` followed by the
substring test on its description). -/
def stepNative (step : FlowStep) : Bool :=
  match step with
  | .label _ => false
  | .dict es =>
    match es.lookup "pdf_scanned_check" with
    | some v => strIn "vector/text PDF" v
    | none => false

/-- Lines 62-66: scan the flow trace, switching the initial
`"Image/Scanned"` to `"Native PDF (Vector)"` whenever a step matches. -/
def classifyType (flow : List FlowStep) : String :=
  flow.foldl
    (fun acc step => if stepNative step then "Native PDF (Vector)" else acc)
    "Image/Scanned"

/-- Line 80: `cqs.get("status", "N/A").lower()`.  A present-but-null status
is Python `None`, and `None.lower()` raises `AttributeError`: modelled as
`none`. -/
def qStatusLower (cqs : CQS) : Option String :=
  match cqs.status with
  | none => some (strLower "N/A")
  | some none => none
  | some (some s) => some (strLower s)

/-- Line 101, with Python precedence
`(analysis.get(k) or 100) if pdf else analysis.get(k, 0)`:
for native PDFs a falsy score (absent key, `null`, or `0`) becomes 100;
otherwise the provided value is kept (absent key becoming `0` and `null`
becoming `None`). -/
def confidenceCalc (process_type : String) (analysis : Analysis) : Option Int :=
  if process_type = "Native PDF (Vector)" then
    some (match analysis.overall_confidence with
          | some (some v) => if v = 0 then 100 else v
          | _ => 100)
  else
    match analysis.overall_confidence with
    | none => some 0
    | some v => v

/-- Line 91: `key_parts[1] if len(key_parts) > 1 else "Unknown"` over
`actual_key.split('/')`. -/
def projectOfKey (key : String) : String :=
  match splitAll '/' key.toList with
  | _ :: p :: _ => String.mk p
  | _ => "Unknown"

/-- Line 92: `actual_key.split('.')[-1].upper() if '.' in actual_key else "IMG"`. -/
def extOfKey (key : String) : String :=
  if key.toList.contains '.' then
    strUpper (String.mk ((splitAll '.' key.toList).getLastD []))
  else "IMG"

/-- Lines 36-108 for one truthy raw entry.  `none` models an exception
escaping the loop body (only possible from `qStatusLower`). -/
def processOne (bucketName : String) (r : RawResult) : Option Record :=
  let raw_s3_key := pyOr r.s3_key ""
  let bk := resolveLocation bucketName raw_s3_key
  let filename := pyOr r.input_filename ""
  let flow := r.flow.getD []
  let process_type := classifyType flow
  let file_timestamp := extractTimestamp filename
  let cqs := r.custom_quality_score.getD {}
  match qStatusLower cqs with
  | none => none
  | some q_status =>
    let analysis := r.analysis.getD {}
    let ocr := r.ocr.getD {}
    let timings := r.timings.getD {}
    some
      { Filename := filename
        Timestamp := file_timestamp
        Decision := pyOr r.decision "N/A"
        Type_ := process_type
        Quality_Status := q_status
        Quality_Reason :=
          match cqs.reason with
          | none => some "N/A"
          | some v => v
        Confidence := confidenceCalc process_type analysis
        Project := projectOfKey bk.2
        File_Extension := extOfKey bk.2
        Total_Duration :=
          match timings.total_duration with
          | none => some 0
          | some v => v
        Text_Length := (pyOr ocr.text "").length
        S3_Bucket := bk.1
        S3_Key := bk.2 }

/-- One element of the input `results` array: `nullish` is any falsy entry
(JSON `null` or an empty object), skipped by `if not r: continue`. -/
inductive RawEntry where
  | nullish
  | entry (r : RawResult)
deriving DecidableEq

/-- The `for r in results` loop of lines 36-108.  A raised exception
anywhere aborts the whole call (`none`). -/
def flattenResults (bucketName : String) : List RawEntry → Option (List Record)
  | [] => some []
  | RawEntry.nullish :: rest => flattenResults bucketName rest
  | RawEntry.entry r :: rest =>
    match processOne bucketName r with
    | none => none
    | some row =>
      match flattenResults bucketName rest with
      | none => none
      | some rows => some (row :: rows)

/-- Chronological encoding of a timestamp, for the dataframe sort. -/
def dtKey (t : DateTime) : Nat :=
  ((((t.year * 100 + t.month) * 100 + t.day) * 100 + t.hour) * 100 +
      t.minute) * 100 + t.second

/-- Comparator for `sort_values(by='Timestamp', ascending=False)`:
`a` may stay before `b` in descending order, with `NaT` after every
present timestamp. -/
def keyGE (a b : Record) : Bool :=
  match a.Timestamp, b.Timestamp with
  | some x, some y => Nat.ble (dtKey y) (dtKey x)
  | some _, none => true
  | none, some _ => false
  | none, none => true

def insertByKey (r : Record) : List Record → List Record
  | [] => [r]
  | x :: xs => if keyGE x r then x :: insertByKey r xs else r :: x :: xs

/-- Lines 110-112: sort the flattened rows by timestamp, descending, `NaT`
last.  (Tie order is not fixed by the source — pandas' default sort kind is
not stable — so only key order and multiset identity are meaningful.) -/
def sortByTimestampDesc (rs : List Record) : List Record :=
  rs.foldr insertByKey []

/-- `process_json`: flatten all truthy entries, then sort. -/
def processJson (bucketName : String) (es : List RawEntry) :
    Option (List Record) :=
  (flattenResults bucketName es).map sortByTimestampDesc

/-! ## Filter engine (`filter_dataframe`, lines 170-184, and the
cross-filter counts of lines 277-308) -/

/-- The session-scoped filter selection (`st.session_state.filter_quality`
and `st.session_state.filter_type`). -/
structure FilterSelection where
  qualityFilter : String
  typeFilter : String
deriving DecidableEq

/-- Lines 170-184: conjunctive application of the quality filter then the
type filter. -/
def filter_dataframe (df : List Record) (quality_val type_val : String) :
    List Record :=
  let t1 :=
    if quality_val = "pass" then df.filter (fun r => r.Quality_Status == "pass")
    else if quality_val = "fail" then
      df.filter (fun r => r.Quality_Status == "fail")
    else if quality_val = "na" then
      df.filter (fun r =>
        !(r.Quality_Status == "pass" || r.Quality_Status == "fail"))
    else df
  if type_val = "pdf" then
    t1.filter (fun r => r.Type_ == "Native PDF (Vector)")
  else if type_val = "image" then
    t1.filter (fun r => r.Type_ == "Image/Scanned")
  else t1

/-- The four options of the quality radio (the keys of `q_counts`). -/
inductive QualityOpt where
  | all
  | pass
  | fail
  | na
deriving DecidableEq

/-- The three options of the type radio (the keys of `t_counts`). -/
inductive TypeOpt where
  | all
  | pdf
  | image
deriving DecidableEq

/-- Lines 277-283: quality counts over the frame filtered by the *other*
dimension only (`filter_dataframe(df, "All", st.session_state.filter_type)`). -/
def q_counts (df : List Record) (sel : FilterSelection) : QualityOpt → Nat :=
  let dfq := filter_dataframe df "All" sel.typeFilter
  fun opt =>
    match opt with
    | .all => dfq.length
    | .pass => (dfq.filter (fun r => r.Quality_Status == "pass")).length
    | .fail => (dfq.filter (fun r => r.Quality_Status == "fail")).length
    | .na =>
      (dfq.filter (fun r =>
        !(r.Quality_Status == "pass" || r.Quality_Status == "fail"))).length

/-- Lines 303-308: type counts over the frame filtered by the *other*
dimension only (`filter_dataframe(df, st.session_state.filter_quality, "All")`). -/
def t_counts (df : List Record) (sel : FilterSelection) : TypeOpt → Nat :=
  let dft := filter_dataframe df sel.qualityFilter "All"
  fun opt =>
    match opt with
    | .all => dft.length
    | .pdf => (dft.filter (fun r => r.Type_ == "Native PDF (Vector)")).length
    | .image => (dft.filter (fun r => r.Type_ == "Image/Scanned")).length

/-- Spec-side quality predicate: `All` passes everything, `pass`/`fail`
match exactly, `na` matches every other status. -/
def qualityPred (sel : String) (r : Record) : Bool :=
  if sel = "pass" then r.Quality_Status == "pass"
  else if sel = "fail" then r.Quality_Status == "fail"
  else if sel = "na" then
    !(r.Quality_Status == "pass" || r.Quality_Status == "fail")
  else true

/-- Spec-side type predicate. -/
def typePred (sel : String) (r : Record) : Bool :=
  if sel = "pdf" then r.Type_ == "Native PDF (Vector)"
  else if sel = "image" then r.Type_ == "Image/Scanned"
  else true

/-- Spec-side predicate for one quality option of the cross-filter count. -/
def qOptPred : QualityOpt → Record → Bool
  | .all, _ => true
  | .pass, r => r.Quality_Status == "pass"
  | .fail, r => r.Quality_Status == "fail"
  | .na, r => !(r.Quality_Status == "pass" || r.Quality_Status == "fail")

/-- Spec-side predicate for one type option of the cross-filter count. -/
def tOptPred : TypeOpt → Record → Bool
  | .all, _ => true
  | .pdf, r => r.Type_ == "Native PDF (Vector)"
  | .image, r => r.Type_ == "Image/Scanned"

/-! ## KPI aggregator (lines 251-255) -/

/-- Line 254: number of records whose quality status is exactly `"pass"`. -/
def pass_count (df : List Record) : Nat :=
  (df.filter (fun r => r.Quality_Status == "pass")).length

/-- Line 255: `(pass_count / total_files * 100) if total_files > 0 else 0`. -/
def pass_rate (df : List Record) : ℚ :=
  if 0 < df.length then
    (pass_count df : ℚ) / (df.length : ℚ) * 100
  else 0

/-! ## Navigation state machine (lines 186-191 and 362-372)

The `next`/`prev` callbacks increment and decrement unconditionally, but
Streamlit only fires them when the button is enabled; `clickNext` and
`clickPrev` compose the callback with its `disabled` guard.  Lines 363-364
renormalize the index whenever the filtered list changed. -/

/-- Lines 363-364: `if st.session_state.file_index >= total_files:
st.session_state.file_index = 0`. -/
def onDatasetChanged (idx total : Nat) : Nat :=
  if total ≤ idx then 0 else idx

/-- Line 369: the Prev button, `disabled=(st.session_state.file_index == 0)`,
with the `prev_file` callback of line 191. -/
def clickPrev (idx : Nat) : Nat :=
  if idx = 0 then idx else idx - 1

/-- Line 372: the Next button,
`disabled=(st.session_state.file_index == total_files - 1)`, with the
`next_file` callback of line 188. -/
def clickNext (idx total : Nat) : Nat :=
  if idx = total - 1 then idx else idx + 1

/-! ## Spec-side characterizations and bridge lemmas -/

/-- Spec-side reading of C2's step condition: the step is a mapping whose
`pdf_scanned_check` description contains `"vector/text PDF"`. -/
def NativeStepProp (step : FlowStep) : Prop :=
  ∃ es v, step = FlowStep.dict es ∧ es.lookup "pdf_scanned_check" = some v ∧
    strIn "vector/text PDF" v = true

theorem stepNative_iff (step : FlowStep) :
    stepNative step = true ↔ NativeStepProp step := by
  cases step with
  | label s =>
    simp only [stepNative]
    constructor
    · intro h; cases h
    · rintro ⟨es, v, h, -, -⟩; cases h
  | dict es =>
    cases h : es.lookup "pdf_scanned_check" with
    | none =>
      simp only [stepNative, h]
      constructor
      · intro h'; cases h'
      · rintro ⟨es', v, he, hl, -⟩
        cases he
        rw [h] at hl; cases hl
    | some v =>
      simp only [stepNative, h]
      constructor
      · intro h'
        exact ⟨es, v, rfl, h, h'⟩
      · rintro ⟨es', v', he, hl, hv⟩
        cases he
        rw [h] at hl
        cases hl
        exact hv

theorem classifyType_foldl (flow : List FlowStep) (acc : String) :
    flow.foldl
        (fun acc step =>
          if stepNative step then "Native PDF (Vector)" else acc) acc =
      if flow.any stepNative then "Native PDF (Vector)" else acc := by
  induction flow generalizing acc with
  | nil => simp
  | cons s rest ih =>
    simp only [List.foldl_cons, List.any_cons]
    by_cases hs : stepNative s
    · simp [hs, ih]
    · simp [hs, ih]

theorem classifyType_eq_native_iff (flow : List FlowStep) :
    classifyType flow = "Native PDF (Vector)" ↔
      ∃ step ∈ flow, NativeStepProp step := by
  unfold classifyType
  rw [classifyType_foldl]
  by_cases h : flow.any stepNative
  · rw [if_pos h]
    simp only [List.any_eq_true] at h
    obtain ⟨step, hmem, hstep⟩ := h
    exact ⟨fun _ => ⟨step, hmem, (stepNative_iff step).mp hstep⟩, fun _ => rfl⟩
  · rw [if_neg h]
    constructor
    · intro hcon
      exact absurd hcon (by decide)
    · rintro ⟨step, hmem, hstep⟩
      exact absurd (List.any_eq_true.mpr
        ⟨step, hmem, (stepNative_iff step).mpr hstep⟩) h

theorem classifyType_cases (flow : List FlowStep) :
    classifyType flow = "Native PDF (Vector)" ∨
      classifyType flow = "Image/Scanned" := by
  unfold classifyType
  rw [classifyType_foldl]
  by_cases h : flow.any stepNative
  · exact Or.inl (by rw [if_pos h])
  · exact Or.inr (by rw [if_neg h])

/-- Projections of a successfully normalized record, tying each dataframe
column back to the helper that computes it. -/
theorem processOne_proj {b : String} {r : RawResult} {row : Record}
    (h : processOne b r = some row) :
    row.Filename = pyOr r.input_filename "" ∧
    row.Timestamp = extractTimestamp (pyOr r.input_filename "") ∧
    row.Type_ = classifyType (r.flow.getD []) ∧
    row.Confidence = confidenceCalc row.Type_ (r.analysis.getD {}) ∧
    row.S3_Bucket = (resolveLocation b (pyOr r.s3_key "")).1 ∧
    row.S3_Key = (resolveLocation b (pyOr r.s3_key "")).2 ∧
    row.Project = projectOfKey row.S3_Key ∧
    row.File_Extension = extOfKey row.S3_Key := by
  simp only [processOne] at h
  cases hq : qStatusLower (r.custom_quality_score.getD {}) with
  | none => rw [hq] at h; cases h
  | some qs =>
    rw [hq] at h
    simp only [Option.some.injEq] at h
    subst h
    exact ⟨rfl, rfl, rfl, rfl, rfl, rfl, rfl, rfl⟩

theorem qStatusLower_isSome {cqs : CQS} (h : cqs.status ≠ some none) :
    ∃ s, qStatusLower cqs = some s := by
  cases hs : cqs.status with
  | none => exact ⟨strLower "N/A", by simp [qStatusLower, hs]⟩
  | some inner =>
    cases inner with
    | none => exact absurd hs h
    | some s => exact ⟨strLower s, by simp [qStatusLower, hs]⟩

theorem processOne_isSome {b : String} {r : RawResult}
    (h : (r.custom_quality_score.getD {}).status ≠ some none) :
    (processOne b r).isSome = true := by
  obtain ⟨s, hs⟩ := qStatusLower_isSome h
  simp [processOne, hs]

theorem filter_filter_and {α : Type} (p q : α → Bool) (l : List α) :
    (l.filter q).filter p = l.filter (fun a => q a && p a) := by
  induction l with
  | nil => rfl
  | cons x xs ih =>
    by_cases hq : q x <;> by_cases hp : p x <;>
      simp [List.filter_cons, hq, hp, ih]

theorem filter_true_id {α : Type} (l : List α) :
    l.filter (fun _ => true) = l := by
  induction l with
  | nil => rfl
  | cons x xs ih => simp [List.filter_cons, ih]

theorem qualStage_eq (df : List Record) (q : String) :
    (if q = "pass" then df.filter (fun r => r.Quality_Status == "pass")
     else if q = "fail" then df.filter (fun r => r.Quality_Status == "fail")
     else if q = "na" then
       df.filter (fun r =>
         !(r.Quality_Status == "pass" || r.Quality_Status == "fail"))
     else df) = df.filter (qualityPred q) := by
  unfold qualityPred
  by_cases h1 : q = "pass"
  · simp [h1]
  · by_cases h2 : q = "fail"
    · simp [h1, h2]
    · by_cases h3 : q = "na"
      · simp [h1, h2, h3]
      · simp [h1, h2, h3, filter_true_id]

theorem typeStage_eq (l : List Record) (t : String) :
    (if t = "pdf" then l.filter (fun r => r.Type_ == "Native PDF (Vector)")
     else if t = "image" then l.filter (fun r => r.Type_ == "Image/Scanned")
     else l) = l.filter (typePred t) := by
  unfold typePred
  by_cases h1 : t = "pdf"
  · simp [h1]
  · by_cases h2 : t = "image"
    · simp [h1, h2]
    · simp [h1, h2, filter_true_id]

theorem filter_congr_fun {α : Type} {p q : α → Bool} (l : List α)
    (h : ∀ a, p a = q a) : l.filter p = l.filter q := by
  induction l with
  | nil => rfl
  | cons x xs ih =>
    simp only [List.filter_cons, h x, ih]

theorem filter_dataframe_eq (df : List Record) (q t : String) :
    filter_dataframe df q t =
      df.filter (fun r => qualityPred q r && typePred t r) := by
  simp only [filter_dataframe]
  rw [qualStage_eq, typeStage_eq, filter_filter_and]

/-- The spec decomposition behind `filename.rsplit('.', 1)[0]`. -/
def IsStrippedCore (f core : List Char) : Prop :=
  (∃ ext, f = core ++ '.' :: ext ∧ '.' ∉ ext) ∨ ('.' ∉ f ∧ core = f)

/-- The spec decomposition behind `name_clean.split('_')[-1]`. -/
def IsLastSeg (s seg : List Char) : Prop :=
  (∃ pre, s = pre ++ '_' :: seg ∧ '_' ∉ seg) ∨ ('_' ∉ s ∧ seg = s)

theorem stripDotSuffix_spec (f : List Char) :
    IsStrippedCore f (stripDotSuffix f) := by
  cases h : splitLastAux '.' f with
  | none =>
    simp only [stripDotSuffix, h]
    exact Or.inr ⟨splitLastAux_eq_none.mp h, rfl⟩
  | some p =>
    obtain ⟨b, e⟩ := p
    obtain ⟨hf, hne⟩ := splitLastAux_sound h
    simp only [stripDotSuffix, h]
    exact Or.inl ⟨e, hf, hne⟩

theorem stripDotSuffix_eq_of {f core : List Char} (h : IsStrippedCore f core) :
    stripDotSuffix f = core := by
  rcases h with ⟨ext, rfl, hne⟩ | ⟨hno, rfl⟩
  · simp only [stripDotSuffix, splitLastAux_complete hne]
  · simp only [stripDotSuffix, splitLastAux_eq_none.mpr hno]

theorem lastUnderscoreSeg_spec (s : List Char) :
    IsLastSeg s (lastUnderscoreSeg s) := by
  cases h : splitLastAux '_' s with
  | none =>
    simp only [lastUnderscoreSeg, h]
    exact Or.inr ⟨splitLastAux_eq_none.mp h, rfl⟩
  | some p =>
    obtain ⟨b, e⟩ := p
    obtain ⟨hf, hne⟩ := splitLastAux_sound h
    simp only [lastUnderscoreSeg, h]
    exact Or.inl ⟨b, hf, hne⟩

theorem lastUnderscoreSeg_eq_of {s seg : List Char} (h : IsLastSeg s seg) :
    lastUnderscoreSeg s = seg := by
  rcases h with ⟨pre, rfl, hne⟩ | ⟨hno, rfl⟩
  · simp only [lastUnderscoreSeg, splitLastAux_complete hne]
  · simp only [lastUnderscoreSeg, splitLastAux_eq_none.mpr hno]

theorem insertByKey_length (r : Record) (l : List Record) :
    (insertByKey r l).length = l.length + 1 := by
  induction l with
  | nil => rfl
  | cons x xs ih =>
    by_cases h : keyGE x r <;> simp [insertByKey, h, ih]

theorem sortByTimestampDesc_length (rs : List Record) :
    (sortByTimestampDesc rs).length = rs.length := by
  induction rs with
  | nil => rfl
  | cons x xs ih =>
    simp [sortByTimestampDesc, List.foldr_cons, insertByKey_length]
    simpa [sortByTimestampDesc] using ih

theorem projectOfKey_no_slash {key : String} (h : '/' ∉ key.toList) :
    projectOfKey key = "Unknown" := by
  simp only [projectOfKey, splitAll_no_occ h]

theorem projectOfKey_two_segments {key : String} {a b : List Char}
    (hdec : key.toList = a ++ '/' :: b) (ha : '/' ∉ a) (hb : '/' ∉ b) :
    projectOfKey key = String.mk b := by
  simp only [projectOfKey, hdec, splitAll_first_occ ha, splitAll_no_occ hb]

theorem projectOfKey_second_segment {key : String} {a p c : List Char}
    (hdec : key.toList = a ++ '/' :: (p ++ '/' :: c)) (ha : '/' ∉ a)
    (hp : '/' ∉ p) : projectOfKey key = String.mk p := by
  simp only [projectOfKey, hdec, splitAll_first_occ ha, splitAll_first_occ hp]

theorem charContains_iff {l : List Char} {c : Char} :
    l.contains c = true ↔ c ∈ l := List.elem_iff

theorem extOfKey_no_dot {key : String} (h : '.' ∉ key.toList) :
    extOfKey key = "IMG" := by
  have hc : key.toList.contains '.' = false := by
    cases hcon : key.toList.contains '.' with
    | false => rfl
    | true => exact absurd (charContains_iff.mp hcon) h
  unfold extOfKey
  rw [hc]
  rfl

theorem extOfKey_last_dot {key : String} {pre post : List Char}
    (hdec : key.toList = pre ++ '.' :: post) (hnp : '.' ∉ post) :
    extOfKey key = strUpper (String.mk post) := by
  have hc : (pre ++ '.' :: post).contains '.' = true :=
    charContains_iff.mpr (by simp)
  unfold extOfKey
  rw [hdec, hc, if_pos rfl, splitAll_getLastD_last_occ hnp]

/-- Is the raw entry falsy (skipped by `if not r: continue`)? -/
def isNullish : RawEntry → Bool
  | .nullish => true
  | .entry _ => false

/-- Does the entry avoid the `None.lower()` crash, i.e. is its
`custom_quality_score.status` not an explicit JSON `null`? -/
def statusNotNull : RawEntry → Bool
  | .nullish => true
  | .entry r => !((r.custom_quality_score.getD {}).status == some none)

theorem flattenResults_count (b : String) (es : List RawEntry)
    (h : ∀ e ∈ es, statusNotNull e = true) :
    ∃ rows, flattenResults b es = some rows ∧
      rows.length = es.countP (fun e => !(isNullish e)) := by
  induction es with
  | nil => exact ⟨[], rfl, rfl⟩
  | cons e rest ih =>
    obtain ⟨rows, hr, hlen⟩ := ih (fun x hx => h x (List.mem_cons_of_mem e hx))
    cases e with
    | nullish =>
      refine ⟨rows, ?_, ?_⟩
      · simpa [flattenResults] using hr
      · simp [List.countP_cons, isNullish, hlen]
    | entry r =>
      have hs := h _ (List.mem_cons_self _ _)
      have hnn : (r.custom_quality_score.getD {}).status ≠ some none := by
        simp only [statusNotNull, Bool.not_eq_true', beq_eq_false_iff_ne,
          ne_eq] at hs
        exact hs
      obtain ⟨row, hrow⟩ :=
        Option.isSome_iff_exists.mp (@processOne_isSome b r hnn)
      refine ⟨row :: rows, ?_, ?_⟩
      · simp [flattenResults, hrow, hr]
      · simp [List.countP_cons, isNullish, hlen]

/-! ## Concrete inputs used by counterexamples and witnesses -/

/-- The worked example of spec section 8. -/
def exSpec8 : RawResult :=
  { input_filename := some "doc_01152025093000.pdf"
    s3_key := some "s3://mybucket/ProjA/Ingested/doc_01152025093000.pdf"
    decision := some "accept"
    custom_quality_score := some { status := some (some "PASS"), reason := some (some "") }
    flow := some [FlowStep.dict [("pdf_scanned_check", "vector/text PDF detected")]] }

/-- The row `process_json` produces for `exSpec8`. -/
def exSpec8Row : Record :=
  { Filename := "doc_01152025093000.pdf"
    Timestamp := some ⟨2025, 1, 15, 9, 30, 0⟩
    Decision := "accept"
    Type_ := "Native PDF (Vector)"
    Quality_Status := "pass"
    Quality_Reason := some ""
    Confidence := some 100
    Project := "Ingested"
    File_Extension := "PDF"
    Total_Duration := some 0
    Text_Length := 0
    S3_Bucket := "mybucket"
    S3_Key := "ProjA/Ingested/doc_01152025093000.pdf" }

/-- A native-PDF record that explicitly provides `overall_confidence: 0`. -/
def exConfZero : RawResult :=
  { flow := some [FlowStep.dict [("pdf_scanned_check", "vector/text PDF detected")]]
    analysis := some { overall_confidence := some (some 0) } }

/-- The row `process_json` produces for `exConfZero`. -/
def exConfZeroRow : Record :=
  { Filename := ""
    Timestamp := none
    Decision := "N/A"
    Type_ := "Native PDF (Vector)"
    Quality_Status := "n/a"
    Quality_Reason := some "N/A"
    Confidence := some 100
    Project := "Unknown"
    File_Extension := "IMG"
    Total_Duration := some 0
    Text_Length := 0
    S3_Bucket := "default-bucket"
    S3_Key := "" }

/-- A raw result whose key has no scheme and exactly two path segments. -/
def exProjB : RawResult := { s3_key := some "ProjB/file.jpg" }

/-- A raw result with an explicit `null` quality status. -/
def exNullStatus : RawResult :=
  { custom_quality_score := some { status := some none } }

/-- Inputs for the record-count witness: one nullish entry, two good ones. -/
def exEntries : List RawEntry :=
  [RawEntry.nullish, RawEntry.entry exSpec8, RawEntry.entry exProjB]

/-! ## Claim theorems -/

/-- C1 counterexample: a NativePdf record with an explicitly provided
`overall_confidence` of 0 is assigned confidence 100 by `process_json`
(line 101: `analysis.get("overall_confidence") or 100`), although the claim
says an explicitly provided score (including 0) is never replaced by 100. -/
theorem confidence_zero_replaced_counterexample :
    exConfZero.analysis = some { overall_confidence := some (some 0) } ∧
    (processOne "default-bucket" exConfZero).map
        (fun row => (row.Type_, row.Confidence)) =
      some ("Native PDF (Vector)", some 100) ∧
    (some (100 : Int) : Option Int) ≠ some 0 := by
  refine ⟨rfl, ?_, by decide⟩
  decide

/-- The amended confidence policy (C1 corrected): for NativePdf records a
falsy provided score — absent key, JSON null, or 0 — becomes 100, and a
nonzero provided score is kept; for other records the provided value is
kept (null propagating as null), with 0 for an entirely absent key. -/
def confidenceAmended (isNative : Bool) (oc : Option (Option Int)) :
    Option Int :=
  if isNative then
    match oc with
    | some (some v) => if v = 0 then some 100 else some v
    | _ => some 100
  else
    match oc with
    | none => some 0
    | some v => v

/-- C1 (corrected): for every raw result that normalizes, the derived
confidence is 100 when the record is NativePdf and the provided
`overall_confidence` is absent, null, or 0; a nonzero provided value is
kept; for non-NativePdf records the provided value is kept (null
propagating), with 0 when the key is entirely absent.  In particular an
explicit 0 on a NativePdf record IS replaced by 100. -/
theorem confidence_policy_amended :
    ∀ (b : String) (r : RawResult) (row : Record),
      processOne b r = some row →
        row.Confidence =
          confidenceAmended (row.Type_ == "Native PDF (Vector)")
            ((r.analysis.getD {}).overall_confidence) := by
  intro b r row h
  have hc := (processOne_proj h).2.2.2.1
  rw [hc]
  unfold confidenceCalc confidenceAmended
  by_cases ht : row.Type_ = "Native PDF (Vector)"
  · rw [if_pos ht, if_pos (by simp [ht])]
    cases hoc : (r.analysis.getD {}).overall_confidence with
    | none => rfl
    | some inner =>
      cases inner with
      | none => rfl
      | some v =>
        by_cases hv : v = 0
        · simp [hv]
        · simp [hv]
  · rw [if_neg ht, if_neg (by simp [ht])]

/-- Witness for `confidence_policy_amended` at the concrete record
`exConfZero`. -/
theorem confidence_policy_amended_witness :
    processOne "default-bucket" exConfZero = some exConfZeroRow ∧
    exConfZeroRow.Confidence =
      confidenceAmended (exConfZeroRow.Type_ == "Native PDF (Vector)")
        ((exConfZero.analysis.getD {}).overall_confidence) :=
  ⟨by decide,
    confidence_policy_amended "default-bucket" exConfZero exConfZeroRow
      (by decide)⟩

/-- C2 (confirmed): for every raw result that normalizes, the derived
documentType is `"Native PDF (Vector)"` iff some step of its flow is a
mapping whose `pdf_scanned_check` description contains the substring
`"vector/text PDF"`; in every other case (absent or empty flow, label-only
steps included) it is `"Image/Scanned"`. -/
theorem document_type_classification :
    ∀ (b : String) (r : RawResult) (row : Record),
      processOne b r = some row →
        (row.Type_ = "Native PDF (Vector)" ↔
          ∃ step ∈ r.flow.getD [], NativeStepProp step) ∧
        (row.Type_ = "Native PDF (Vector)" ∨ row.Type_ = "Image/Scanned") := by
  intro b r row h
  have htype := (processOne_proj h).2.2.1
  rw [htype]
  exact ⟨classifyType_eq_native_iff _, classifyType_cases _⟩

/-- Witness for `document_type_classification` at the worked example of
spec section 8. -/
theorem document_type_classification_witness :
    processOne "default-bucket" exSpec8 = some exSpec8Row ∧
    (exSpec8Row.Type_ = "Native PDF (Vector)" ∨
      exSpec8Row.Type_ = "Image/Scanned") :=
  ⟨by decide,
    (document_type_classification "default-bucket" exSpec8 exSpec8Row
      (by decide)).2⟩

/-- C3 (confirmed): the derived timestamp is `some t` exactly when the
last `_`-delimited segment of the extension-stripped filename is a
14-digit string that parses (with `datetime`'s validation) as
`MMddyyyyHHmmss` into `t`; and every successfully normalized record
carries `extractTimestamp` of its own filename, so a parse failure only
yields an absent timestamp while the other fields are still populated. -/
theorem timestamp_extraction_spec :
    (∀ (f : String) (t : DateTime),
      extractTimestamp f = some t ↔
        ∃ core seg : List Char,
          IsStrippedCore f.toList core ∧ IsLastSeg core seg ∧
          seg.length = 14 ∧ (∀ c ∈ seg, c.isDigit = true) ∧
          parseTS seg = some t) ∧
    (∀ (b : String) (r : RawResult) (row : Record),
      processOne b r = some row →
        row.Timestamp = extractTimestamp row.Filename) := by
  constructor
  · intro f t
    constructor
    · intro h
      unfold extractTimestamp at h
      by_cases hg :
          ((lastUnderscoreSeg (stripDotSuffix f.toList)).length == 14 &&
            (lastUnderscoreSeg (stripDotSuffix f.toList)).all Char.isDigit) =
            true
      · rw [if_pos hg] at h
        simp only [Bool.and_eq_true, beq_iff_eq, List.all_eq_true] at hg
        exact ⟨stripDotSuffix f.toList,
          lastUnderscoreSeg (stripDotSuffix f.toList),
          stripDotSuffix_spec _, lastUnderscoreSeg_spec _, hg.1,
          fun c hc => hg.2 c hc, h⟩
      · rw [if_neg hg] at h
        cases h
    · rintro ⟨core, seg, hcore, hseg, hlen, hdig, hparse⟩
      have h1 : stripDotSuffix f.toList = core := stripDotSuffix_eq_of hcore
      have h2 : lastUnderscoreSeg core = seg := lastUnderscoreSeg_eq_of hseg
      unfold extractTimestamp
      rw [h1, h2]
      have hg : (seg.length == 14 && seg.all Char.isDigit) = true := by
        simp only [Bool.and_eq_true, beq_iff_eq, List.all_eq_true]
        exact ⟨hlen, hdig⟩
      rw [if_pos hg]
      exact hparse
  · intro b r row h
    have h1 := (processOne_proj h).1
    have h2 := (processOne_proj h).2.1
    rw [h1, h2]

/-- Witness for `timestamp_extraction_spec` at the worked example of spec
section 8. -/
theorem timestamp_extraction_spec_witness :
    processOne "default-bucket" exSpec8 = some exSpec8Row ∧
    exSpec8Row.Timestamp = extractTimestamp exSpec8Row.Filename :=
  ⟨by decide,
    timestamp_extraction_spec.2 "default-bucket" exSpec8 exSpec8Row
      (by decide)⟩

/-- C4 (confirmed): for every dataset and current selection, the
cross-filter count displayed for each option of one dimension equals the
number of records that satisfy the *other* dimension's selected predicate
and have that option's value — and it does not depend on the counted
dimension's own current selection. -/
theorem cross_filter_counts_spec :
    ∀ (df : List Record) (sel : FilterSelection),
      (∀ opt, q_counts df sel opt =
        (df.filter
          (fun r => typePred sel.typeFilter r && qOptPred opt r)).length) ∧
      (∀ opt, t_counts df sel opt =
        (df.filter
          (fun r => qualityPred sel.qualityFilter r && tOptPred opt r)).length) ∧
      (∀ q1 q2 t opt, q_counts df ⟨q1, t⟩ opt = q_counts df ⟨q2, t⟩ opt) ∧
      (∀ t1 t2 q opt, t_counts df ⟨q, t1⟩ opt = t_counts df ⟨q, t2⟩ opt) := by
  intro df sel
  refine ⟨?_, ?_, fun _ _ _ _ => rfl, fun _ _ _ _ => rfl⟩
  · intro opt
    cases opt <;>
      simp only [q_counts, filter_dataframe_eq, filter_filter_and, qOptPred] <;>
      refine congrArg List.length (filter_congr_fun df fun a => ?_) <;>
      cases hT : typePred sel.typeFilter a <;>
      cases hp : a.Quality_Status == "pass" <;>
      cases hf : a.Quality_Status == "fail" <;>
      simp [qualityPred, hT, hp, hf]
  · intro opt
    cases opt <;>
      simp only [t_counts, filter_dataframe_eq, filter_filter_and, tOptPred] <;>
      refine congrArg List.length (filter_congr_fun df fun a => ?_) <;>
      cases hQ : qualityPred sel.qualityFilter a <;>
      cases hp : a.Type_ == "Native PDF (Vector)" <;>
      cases hi : a.Type_ == "Image/Scanned" <;>
      simp [typePred, hQ, hp, hi]

/-- C5 (confirmed): the location resolver strips a leading `"s3://"` and
splits at the first `/` into (container, key); with the scheme but no
slash it falls back to the default container with the raw string as key,
without raising; without the scheme the whole string is the key under the
default container; the empty string gives (default container, empty key). -/
theorem location_resolver_spec :
    ∀ (d raw : String),
      (startsWithS3 raw = true →
        (∀ pre post : List Char,
          raw.toList.drop 5 = pre ++ '/' :: post → '/' ∉ pre →
            resolveLocation d raw = (String.mk pre, String.mk post)) ∧
        ('/' ∉ raw.toList.drop 5 → resolveLocation d raw = (d, raw))) ∧
      (startsWithS3 raw = false → resolveLocation d raw = (d, raw)) ∧
      resolveLocation d "" = (d, "") := by
  intro d raw
  refine ⟨fun hs => ⟨?_, ?_⟩, fun hs => ?_, ?_⟩
  · intro pre post hdec hnp
    unfold resolveLocation
    rw [if_pos hs, hdec, splitFirstAux_complete hnp]
  · intro hno
    unfold resolveLocation
    rw [if_pos hs, splitFirstAux_eq_none.mpr hno]
  · unfold resolveLocation
    rw [if_neg (by simp [hs])]
  · rfl

/-- Witness for `location_resolver_spec`: a schemed key with a slash and a
schemed key without one. -/
theorem location_resolver_spec_witness :
    resolveLocation "default-bucket" "s3://mybucket/ProjA/x.pdf" =
      ("mybucket", "ProjA/x.pdf") ∧
    resolveLocation "default-bucket" "s3://nope" =
      ("default-bucket", "s3://nope") ∧
    resolveLocation "default-bucket" "ProjB/file.jpg" =
      ("default-bucket", "ProjB/file.jpg") :=
  ⟨(location_resolver_spec "default-bucket" "s3://mybucket/ProjA/x.pdf").1
      (by decide) |>.1 "mybucket".toList "ProjA/x.pdf".toList (by decide)
      (by decide),
    (location_resolver_spec "default-bucket" "s3://nope").1 (by decide) |>.2
      (by decide),
    (location_resolver_spec "default-bucket" "ProjB/file.jpg").2.1
      (by decide)⟩

/-- C6 counterexample: for the raw key `"ProjB/file.jpg"` with default
container `"default-bucket"`, resolution and the extension match the
claim, but the derived project is `"file.jpg"` (the second `/`-delimited
segment, `key_parts[1]`), not `"ProjB"`. -/
theorem project_example_counterexample :
    (processOne "default-bucket" exProjB).map
        (fun row => (row.S3_Bucket, row.S3_Key, row.Project,
          row.File_Extension)) =
      some ("default-bucket", "ProjB/file.jpg", "file.jpg", "JPG") ∧
    ("file.jpg" : String) ≠ "ProjB" := by
  refine ⟨?_, by decide⟩
  decide

/-- C6 (corrected): `"ProjB/file.jpg"` resolves to
`(default-bucket, "ProjB/file.jpg")` with extension `"JPG"`, and the
derived project is the second `/`-delimited segment of the resolved key —
which here is `"file.jpg"`, not `"ProjB"` (`"Unknown"` when the key has no
slash); the extension is the substring after the last `.`, uppercased
(`"IMG"` when there is no dot). -/
theorem project_extension_amended :
    ((processOne "default-bucket" exProjB).map
        (fun row => (row.S3_Bucket, row.S3_Key, row.Project,
          row.File_Extension)) =
      some ("default-bucket", "ProjB/file.jpg", "file.jpg", "JPG")) ∧
    (∀ (b : String) (r : RawResult) (row : Record),
      processOne b r = some row →
        row.Project = projectOfKey row.S3_Key ∧
        row.File_Extension = extOfKey row.S3_Key) ∧
    (∀ (key : String), '/' ∉ key.toList → projectOfKey key = "Unknown") ∧
    (∀ (key : String) (a bb : List Char),
      key.toList = a ++ '/' :: bb → '/' ∉ a → '/' ∉ bb →
        projectOfKey key = String.mk bb) ∧
    (∀ (key : String) (a p c : List Char),
      key.toList = a ++ '/' :: (p ++ '/' :: c) → '/' ∉ a → '/' ∉ p →
        projectOfKey key = String.mk p) ∧
    (∀ (key : String), '.' ∉ key.toList → extOfKey key = "IMG") ∧
    (∀ (key : String) (pre post : List Char),
      key.toList = pre ++ '.' :: post → '.' ∉ post →
        extOfKey key = strUpper (String.mk post)) := by
  refine ⟨by decide, ?_, ?_, ?_, ?_, ?_, ?_⟩
  · intro b r row h
    exact ⟨(processOne_proj h).2.2.2.2.2.2.1,
      (processOne_proj h).2.2.2.2.2.2.2⟩
  · intro key h
    exact projectOfKey_no_slash h
  · intro key a bb hdec ha hb
    exact projectOfKey_two_segments hdec ha hb
  · intro key a p c hdec ha hp
    exact projectOfKey_second_segment hdec ha hp
  · intro key h
    exact extOfKey_no_dot h
  · intro key pre post hdec hnp
    exact extOfKey_last_dot hdec hnp

/-- Witness for `project_extension_amended` at the resolved key
`"ProjB/file.jpg"`. -/
theorem project_extension_amended_witness :
    projectOfKey "ProjB/file.jpg" = String.mk "file.jpg".toList ∧
    extOfKey "ProjB/file.jpg" = strUpper (String.mk "jpg".toList) :=
  ⟨project_extension_amended.2.2.2.1 "ProjB/file.jpg" "ProjB".toList
      "file.jpg".toList (by decide) (by decide) (by decide),
    project_extension_amended.2.2.2.2.2.2 "ProjB/file.jpg"
      "ProjB/file".toList "jpg".toList (by decide) (by decide)⟩

/-- C7 counterexample: a non-null raw entry whose `custom_quality_score`
carries an explicit JSON null `status` makes `process_json` raise
(`cqs.get("status", "N/A").lower()` is `None.lower()`), so processing
aborts and no record is emitted for a non-null input. -/
theorem null_status_abort_counterexample :
    processJson "default-bucket" [RawEntry.entry exNullStatus] = none ∧
    RawEntry.entry exNullStatus ≠ RawEntry.nullish := by
  refine ⟨?_, by decide⟩
  decide

/-- C7 (corrected): provided no raw entry carries an explicit JSON null
`custom_quality_score.status` (which raises `AttributeError` and aborts
the whole call), normalization never aborts: every other malformed field
degrades to its default, only fully-null/empty raw entries are skipped,
and the output count equals the count of non-null raw inputs. -/
theorem record_count_amended :
    ∀ (b : String) (es : List RawEntry),
      (∀ e ∈ es, statusNotNull e = true) →
        ∃ rows, processJson b es = some rows ∧
          rows.length = es.countP (fun e => !(isNullish e)) := by
  intro b es h
  obtain ⟨rows, hr, hlen⟩ := flattenResults_count b es h
  refine ⟨sortByTimestampDesc rows, ?_, ?_⟩
  · simp [processJson, hr]
  · rw [sortByTimestampDesc_length, hlen]

/-- Witness for `record_count_amended` at a three-entry input (one nullish,
two good): two records come out. -/
theorem record_count_amended_witness :
    (∀ e ∈ exEntries, statusNotNull e = true) ∧
    ∃ rows, processJson "default-bucket" exEntries = some rows ∧
      rows.length = exEntries.countP (fun e => !(isNullish e)) :=
  ⟨by decide, record_count_amended "default-bucket" exEntries (by decide)⟩

/-- C9 (confirmed): over a non-empty filtered list, `prev` at index 0 and
`next` at the last index are no-ops (their buttons are disabled), the
dataset-change renormalization resets the index to 0 exactly when the old
index is out of range, and every transition preserves the invariant
`index < length`. -/
theorem navigation_invariant_spec :
    ∀ (total idx : Nat), 0 < total → idx < total →
      clickPrev 0 = 0 ∧
      clickNext (total - 1) total = total - 1 ∧
      (∀ j t2, (t2 ≤ j → onDatasetChanged j t2 = 0) ∧
               (j < t2 → onDatasetChanged j t2 = j)) ∧
      clickNext idx total < total ∧
      clickPrev idx < total ∧
      (∀ t2, 0 < t2 → onDatasetChanged idx t2 < t2) := by
  intro total idx h1 h2
  refine ⟨by simp [clickPrev], by simp [clickNext], ?_, ?_, ?_, ?_⟩
  · intro j t2
    constructor
    · intro h
      simp [onDatasetChanged, h]
    · intro h
      simp [onDatasetChanged, Nat.not_le.mpr h]
  · unfold clickNext
    split_ifs with h <;> omega
  · unfold clickPrev
    split_ifs with h <;> omega
  · intro t2 h
    unfold onDatasetChanged
    split_ifs with h' <;> omega

/-- Witness for `navigation_invariant_spec` at `total = 3`, `idx = 1`. -/
theorem navigation_invariant_spec_witness :
    clickNext 1 3 < 3 ∧ clickPrev 1 < 3 ∧ onDatasetChanged 5 2 = 0 :=
  ⟨(navigation_invariant_spec 3 1 (by decide) (by decide)).2.2.2.1,
    (navigation_invariant_spec 3 1 (by decide) (by decide)).2.2.2.2.1,
    ((navigation_invariant_spec 3 1 (by decide) (by decide)).2.2.1 5 2).1
      (by decide)⟩

/-- C10 (confirmed): the KPI pass rate is `passCount / total * 100` when
the filtered table is non-empty, and exactly 0 when it is empty — the
division is guarded, so no division-by-zero fault occurs. -/
theorem pass_rate_spec :
    ∀ df : List Record,
      (df.length = 0 → pass_rate df = 0) ∧
      (0 < df.length →
        pass_rate df * (df.length : ℚ) = (pass_count df : ℚ) * 100) := by
  intro df
  constructor
  · intro h
    simp [pass_rate, h]
  · intro h
    have hne : (df.length : ℚ) ≠ 0 := by
      exact_mod_cast Nat.pos_iff_ne_zero.mp h
    rw [pass_rate, if_pos h]
    field_simp

/-- Witness for `pass_rate_spec` on the empty table and on a one-record
table whose record passed. -/
theorem pass_rate_spec_witness :
    pass_rate [] = 0 ∧
    pass_rate [exSpec8Row] * (([exSpec8Row] : List Record).length : ℚ) =
      (pass_count [exSpec8Row] : ℚ) * 100 :=
  ⟨(pass_rate_spec []).1 rfl, (pass_rate_spec [exSpec8Row]).2 (by decide)⟩

end UiModel
